import Mathlib

/-!
Verification of the nestgo dependency-injection / routing framework.

The Go source is shallowly embedded: service instances are identified by
a reference id (`Ref`), Go `map[string]T` values are modelled as
association lists with overwrite-update semantics, and reflective struct
access is modelled by explicit field lists.
-/

namespace NestGo

/-- A reference identity: the address of a Go heap value.  Two fields are
reference-equal exactly when they hold the same `Ref`. -/
abbrev Ref := Nat

/-- Lookup in a Go map modelled as an association list
(`service, exists := c.services[name]`). -/
def mapGet {α : Type} : List (String × α) → String → Option α
  | [], _ => none
  | (k, v) :: rest, key => if k = key then some v else mapGet rest key

/-- Go map assignment `m[key] = v`: overwrite the entry for `key` when
present, otherwise add one. -/
def mapUpdate {α : Type} : List (String × α) → String → α → List (String × α)
  | [], key, v => [(key, v)]
  | (k, w) :: rest, key, v =>
      if k = key then (key, v) :: rest else (k, w) :: mapUpdate rest key v

/-- Go map membership test (`_, exists := m[key]`). -/
def mapHasKey {α : Type} : List (String × α) → String → Bool
  | [], _ => false
  | (k, _) :: rest, key => if k = key then true else mapHasKey rest key

/-! ## Container (pkg/container) -/

/-- The `Container` from the container package: `services map[string]interface{}`. -/
structure Container where
  services : List (String × Ref)
deriving Repr, DecidableEq

/-- Method `Container.Register`: `c.services[name] = service`. -/
def Container.Register (c : Container) (name : String) (service : Ref) : Container :=
  { services := mapUpdate c.services name service }

/-- Method `Container.Get`: map lookup returning the service and whether it exists. -/
def Container.Get (c : Container) (name : String) : Option Ref :=
  mapGet c.services name

/-- One struct field of an injection target, as seen through reflection:
its name, its `inject` tag, whether `CanSet` holds, and its current value
(`none` models a nil/zero field). -/
structure Field where
  name : String
  injectTag : String
  canSet : Bool
  value : Option Ref
deriving Repr, DecidableEq

/-- An injection target: `isPtr` models `reflect.ValueOf(target).Kind() ==
reflect.Ptr`; `name` is the struct type name; `fields` the struct fields in
declaration order. -/
structure Target where
  isPtr : Bool
  name : String
  fields : List Field
deriving Repr, DecidableEq

/-- The body of `Inject`'s per-field iteration: if the field has a non-empty
`inject` tag, look the tag up; if found and settable assign the registered
instance, otherwise record a descriptive missing-dependency entry. Returns
the (possibly updated) field and the entries appended to
`missingDependencies` for this field. -/
def injectField (svcs : List (String × Ref)) (f : Field) : Field × List String :=
  if f.injectTag ≠ "" then
    match mapGet svcs f.injectTag with
    | some service =>
        if f.canSet then ({ f with value := some service }, [])
        else (f, ["field " ++ f.name ++ " (cannot set)"])
    | none => (f, ["service " ++ f.injectTag ++ " (not found)"])
  else (f, [])

/-- The `for i := 0; i < targetValue.NumField(); i++` loop of `Inject`:
processes every field in declaration order, collecting updated fields and
the accumulated `missingDependencies` entries in order. -/
def injectLoop (svcs : List (String × Ref)) : List Field → List Field × List String
  | [] => ([], [])
  | f :: rest =>
      let r := injectField svcs f
      let rec' := injectLoop svcs rest
      (r.1 :: rec'.1, r.2 ++ rec'.2)

/-- The error message built by `Inject` when dependencies are missing
(`fmt.Sprintf("CRITICAL: Failed to inject dependencies for %s. Missing: %v", ...)`;
Go prints a `[]string` as its entries space-separated inside brackets). -/
def injectErrorMsg (targetName : String) (missing : List String) : String :=
  "CRITICAL: Failed to inject dependencies for " ++ targetName ++
    ". Missing: [" ++ String.intercalate " " missing ++ "]"

/-- The result of `Inject`: the target after mutation, the container's
service map afterwards, the `missingDependencies` local, and the returned
error (`none` = nil error). -/
structure InjectOut where
  target : Target
  services : List (String × Ref)
  missing : List String
  err : Option String
deriving Repr, DecidableEq

/-- Method `Container.Inject`: a non-pointer target returns nil immediately;
otherwise every field is scanned, dependencies are injected where found and
settable, and a single error naming all missing dependencies is returned
when any were recorded. -/
def Container.Inject (c : Container) (t : Target) : InjectOut :=
  if t.isPtr = false then ⟨t, c.services, [], none⟩
  else
    let r := injectLoop c.services t.fields
    let t' : Target := { t with fields := r.1 }
    if r.2.length > 0 then
      ⟨t', c.services, r.2, some (injectErrorMsg t.name r.2)⟩
    else
      ⟨t', c.services, r.2, none⟩

/-! ## Module registry (pkg/module) -/

/-- A module instance: `name` is what `GetModuleName()` returns; `payload`
is the instance identity, so that two registrations under the same name are
distinguishable. -/
structure Module where
  name : String
  payload : Nat
deriving Repr, DecidableEq

/-- Method `GetModuleName` of the Module interface. -/
def Module.GetModuleName (m : Module) : String := m.name

/-- The `ModuleRegistry`: `modules map[string]Module` (the mutex only guards
concurrent access and has no sequential effect). -/
structure ModuleRegistry where
  modules : List (String × Module)
deriving Repr, DecidableEq

/-- Method `ModuleRegistry.RegisterModule`: unconditional
`mr.modules[module.GetModuleName()] = module`. -/
def ModuleRegistry.RegisterModule (mr : ModuleRegistry) (m : Module) : ModuleRegistry :=
  { modules := mapUpdate mr.modules m.GetModuleName m }

/-- Method `ModuleRegistry.IsModuleRegistered`: map membership test. -/
def ModuleRegistry.IsModuleRegistered (mr : ModuleRegistry) (moduleName : String) : Bool :=
  mapHasKey mr.modules moduleName

/-- Method `ModuleRegistry.GetModule`: lookup by name (`none` models the
"module not found" error). -/
def ModuleRegistry.GetModule (mr : ModuleRegistry) (name : String) : Option Module :=
  mapGet mr.modules name

/-- Function `AutoRegisterModule`: register only when no module of that name is
already present. -/
def AutoRegisterModule (mr : ModuleRegistry) (m : Module) : ModuleRegistry :=
  if !(mr.IsModuleRegistered m.GetModuleName) then mr.RegisterModule m else mr

/-! ### Heap model for `GetAllModules` (claim C9)

Go maps are reference values; `GetAllModules` copies the registry's map
into a freshly allocated one.  To state that mutating the returned map
does not affect the registry, map references are made explicit: a `Heap`
maps allocated references to map contents. -/

/-- A heap of allocated `map[string]Module` values.  `next` is the next
fresh reference. -/
structure Heap where
  maps : List (Ref × List (String × Module))
  next : Ref
deriving Repr, DecidableEq

/-- A heap is well formed when every allocated reference is below `next`. -/
def Heap.wf (h : Heap) : Prop :=
  ∀ p ∈ h.maps, p.1 < h.next

instance (h : Heap) : Decidable h.wf := by
  unfold Heap.wf; infer_instance

/-- Allocate a fresh map with the given contents (`make(map[string]Module)`
followed by the copying loop). -/
def Heap.alloc (h : Heap) (contents : List (String × Module)) : Ref × Heap :=
  (h.next, ⟨h.maps ++ [(h.next, contents)], h.next + 1⟩)

/-- Read the contents of an allocated map. -/
def Heap.read (h : Heap) (r : Ref) : List (String × Module) :=
  match h.maps.find? (fun p => p.1 == r) with
  | some p => p.2
  | none => []

/-- Mutate an allocated map: `m[k] = v` on the map referenced by `r`. -/
def Heap.mapSet (h : Heap) (r : Ref) (k : String) (v : Module) : Heap :=
  ⟨h.maps.map (fun p => if p.1 = r then (p.1, mapUpdate p.2 k v) else p), h.next⟩

/-- Mutate an allocated map: `delete(m, k)` on the map referenced by `r`. -/
def Heap.mapDelete (h : Heap) (r : Ref) (k : String) : Heap :=
  ⟨h.maps.map (fun p => if p.1 = r then (p.1, p.2.filter (fun q => !(q.1 == k))) else p), h.next⟩

/-- Method `ModuleRegistry.GetAllModules` over the explicit heap: the registry's
map lives at `regRef`; a fresh map is allocated and every entry is copied
into it, and the fresh reference is returned. -/
def GetAllModules (h : Heap) (regRef : Ref) : Ref × Heap :=
  h.alloc (h.read regRef)

/-! ## HTTP server (pkg/server) -/

/-- Go's `strings.ReplaceAll(path, ":id", "\x7bid\x7d")` on character lists:
every non-overlapping occurrence of the three-character pattern `:id` is
replaced by `\x7bid\x7d`, scanning left to right; all other characters are
kept.  (The Go call fixes both the pattern and the replacement, so the
replacement is specialized here.) -/
def convertIdChars : List Char → List Char
  | ':' :: 'i' :: 'd' :: rest => '\x7b' :: 'i' :: 'd' :: '\x7d' :: convertIdChars rest
  | c :: rest => c :: convertIdChars rest
  | [] => []

/-- Helper for `strings.Fields`: walk the characters, building the current
token in `acc` (reversed) and emitting it at each whitespace run. -/
def goFieldsAux : List Char → List Char → List String
  | [], acc => if acc = [] then [] else [String.mk acc.reverse]
  | c :: rest, acc =>
      if c.isWhitespace then
        if acc = [] then goFieldsAux rest []
        else String.mk acc.reverse :: goFieldsAux rest []
      else goFieldsAux rest (c :: acc)

/-- Go's `strings.Fields`: split around runs of whitespace, no empty tokens. -/
def goStringFields (s : String) : List String :=
  goFieldsAux s.data []

/-- Go's `strings.TrimSuffix`: remove one trailing occurrence of `suffix`. -/
def goTrimSuffix (s suffix : String) : String :=
  if suffix.data.isSuffixOf s.data then
    String.mk (s.data.take (s.data.length - suffix.data.length))
  else s

/-- Go's `strings.ToUpper` (ASCII range, which covers the method tokens the
route tags use). -/
def goToUpper (s : String) : String :=
  String.mk (s.data.map Char.toUpper)

/-- The path conversion inside `RegisterRoute`:
`strings.ReplaceAll(path, ":id", "\x7bid\x7d")`. -/
def convertPath (path : String) : String :=
  ⟨convertIdChars path.data⟩

/-- A route registered with the Gorilla Mux router: HTTP method, the
(converted) path, and the name of the controller field whose bound handler
serves it. -/
structure Route where
  method : String
  path : String
  handlerField : String
deriving Repr, DecidableEq

/-- The `Server`: its router, modelled as the list of registered routes in
registration order. -/
structure Server where
  routes : List Route
deriving Repr, DecidableEq

/-- Method `Server.RegisterRoute`: convert the `:id` convention to `{id}` and
register the route with the router. -/
def Server.RegisterRoute (s : Server) (method path handlerField : String) : Server :=
  { routes := s.routes ++ [⟨method, convertPath path, handlerField⟩] }

/-- One controller struct field as seen through reflection: its name,
whether its type kind is `reflect.Func`, and its `route` tag. -/
structure CtrlField where
  name : String
  isFunc : Bool
  routeTag : String
deriving Repr, DecidableEq

/-- The body of one iteration of `RegisterController`'s field loop.  Skips
`BaseController` and non-function fields, fields with an empty `route` tag,
and tags that do not split into exactly two tokens; parses
`"METHOD /path"`; and registers the field's route when
`strings.Contains(subPath, ":")` equals `wantParam` (`true` for the first
pass, `false` for the second). -/
def registerField (srv : Server) (basePath : String) (wantParam : Bool)
    (field : CtrlField) : Server :=
  if field.name = "BaseController" || !field.isFunc then srv
  else if field.routeTag = "" then srv
  else
    match goStringFields field.routeTag with
    | [m, p] =>
        let httpMethod := goToUpper m
        let subPath := p
        if subPath.data.contains ':' = wantParam then
          let fullPath := goTrimSuffix basePath "/" ++ subPath
          srv.RegisterRoute httpMethod fullPath field.name
        else srv
    | _ => srv

/-- One pass of `RegisterController`'s field loop over all fields. -/
def Server.registerPass (s : Server) (fields : List CtrlField) (basePath : String)
    (wantParam : Bool) : Server :=
  fields.foldl (fun srv field => registerField srv basePath wantParam field) s

/-- Method `Server.RegisterController`: two passes over the controller's fields,
first registering only parameterized routes, then the rest.  (`moduleName`
is taken by the Go method but unused by its routing logic.) -/
def Server.RegisterController (s : Server) (moduleName : String) (fields : List CtrlField)
    (basePath : String) : Server :=
  let _ := moduleName
  (s.registerPass fields basePath true).registerPass fields basePath false

/-- Specification-side description of what one pass does with a single
field, used to state claims C3 and C8: `none` when the field is skipped,
otherwise the route that is registered for it. -/
def passField (basePath : String) (wantParam : Bool) (field : CtrlField) : Option Route :=
  if field.name = "BaseController" || !field.isFunc then none
  else if field.routeTag = "" then none
  else
    match goStringFields field.routeTag with
    | [m, p] =>
        if p.data.contains ':' = wantParam then
          some ⟨goToUpper m, convertPath (goTrimSuffix basePath "/" ++ p), field.name⟩
        else none
    | _ => none

/-- Specification-side description of one whole pass: the routes it
appends, as an order-preserving filter over the fields. -/
def passRoutes (fields : List CtrlField) (basePath : String) (wantParam : Bool) : List Route :=
  fields.filterMap (passField basePath wantParam)

/-! ### Bound-handler dispatch (`createHandlerWithField`, claim C7) -/

/-- A JSON value, the result of `json.Marshal`. -/
inductive JVal where
  | jstr (s : String)
  | jnum (n : Int)
  | jarr (xs : List JVal)
  | jobj (fields : List (String × JVal))
deriving Repr

/-- A Go value returned by a handler callable, restricted to the cases the
`serializeToJSON` type switch distinguishes. -/
inductive GoValue where
  | strSlice (xs : List String)
  | strMap (m : List (String × JVal))
  | str (s : String)
  | other (j : JVal)
deriving Repr

/-- Method `Server.serializeToJSON`: wrap a `[]string` in a `data`/`count` object,
marshal a map as is, wrap a `string` in a `message` object, and marshal
anything else directly.  (Marshalling of these shapes cannot fail, so no
error case arises.) -/
def serializeToJSON (data : GoValue) : JVal :=
  match data with
  | .strSlice xs => .jobj [("data", .jarr (xs.map JVal.jstr)), ("count", .jnum xs.length)]
  | .strMap m => .jobj m
  | .str s => .jobj [("message", .jstr s)]
  | .other j => j

/-- What the dispatcher writes to the response sink after the callable
returns: nothing, a serialized JSON envelope, or a raw fallback message. -/
inductive DispatchAction where
  | nothing
  | writeJSON (v : JVal)
  | writeRaw (s : String)
deriving Repr

/-- The fallback written when the callable returned a nil result. -/
def noDataMsg : String := "\x7b\"message\": \"No data returned\"\x7d"

/-- The fallback written when the callable has no return value. -/
def fieldExecutedMsg : String := "\x7b\"message\": \"Field executed successfully\"\x7d"

/-- The post-call logic of the handler built by `createHandlerWithField`:
`written` is the `responseTracker.written` flag after the callable ran
(set by any `Write` or `WriteHeader` on the tracked sink), and `results`
are the callable's return values (`none` modelling a nil interface).  If a
response was already written, nothing more is written; otherwise the first
result is serialized when non-nil, and a fallback message is written when
it is nil or absent. -/
def dispatchAfterCall (written : Bool) (results : List (Option GoValue)) : DispatchAction :=
  if !written then
    match results with
    | result :: _ =>
        match result with
        | some v => .writeJSON (serializeToJSON v)
        | none => .writeRaw noDataMsg
    | [] => .writeRaw fieldExecutedMsg
  else
    .nothing

/-! ## Lemmas about the injection loop -/

lemma injectLoop_fst_eq_map (svcs : List (String × Ref)) (fs : List Field) :
    (injectLoop svcs fs).1 = fs.map (fun f => (injectField svcs f).1) := by
  induction fs with
  | nil => rfl
  | cons f rest ih => simp [injectLoop, ih]

lemma injectField_snd_subset_loop (svcs : List (String × Ref)) (fs : List Field)
    (f : Field) (hf : f ∈ fs) (x : String) (hx : x ∈ (injectField svcs f).2) :
    x ∈ (injectLoop svcs fs).2 := by
  induction fs with
  | nil => cases hf
  | cons g rest ih =>
      rcases List.mem_cons.mp hf with h | h
      · subst h
        simp only [injectLoop, List.mem_append]
        exact Or.inl hx
      · simp only [injectLoop, List.mem_append]
        exact Or.inr (ih h)

lemma injectField_snd_nil (svcs : List (String × Ref)) (f : Field)
    (h : f.injectTag ≠ "" → (mapGet svcs f.injectTag).isSome = true ∧ f.canSet = true) :
    (injectField svcs f).2 = [] := by
  by_cases htag : f.injectTag = ""
  · simp [injectField, htag]
  · obtain ⟨hsome, hset⟩ := h htag
    unfold injectField
    cases hget : mapGet svcs f.injectTag with
    | none => rw [hget] at hsome; simp at hsome
    | some s => simp [htag, hget, hset]

lemma injectLoop_snd_nil (svcs : List (String × Ref)) (fs : List Field)
    (h : ∀ f ∈ fs, f.injectTag ≠ "" → (mapGet svcs f.injectTag).isSome = true ∧ f.canSet = true) :
    (injectLoop svcs fs).2 = [] := by
  induction fs with
  | nil => rfl
  | cons f rest ih =>
      simp only [injectLoop, List.append_eq_nil]
      exact ⟨injectField_snd_nil svcs f (h f (List.mem_cons_self f rest)),
             ih (fun g hg => h g (List.mem_cons_of_mem f hg))⟩

lemma injectField_fst_value (svcs : List (String × Ref)) (f : Field)
    (htag : f.injectTag ≠ "") (hsome : (mapGet svcs f.injectTag).isSome = true)
    (hset : f.canSet = true) :
    (injectField svcs f).1.value = mapGet svcs f.injectTag := by
  unfold injectField
  cases hget : mapGet svcs f.injectTag with
  | none => rw [hget] at hsome; simp at hsome
  | some s => simp [htag, hget, hset]

lemma injectField_fst_of_empty_tag (svcs : List (String × Ref)) (f : Field)
    (htag : f.injectTag = "") : (injectField svcs f).1 = f := by
  simp [injectField, htag]

/-! ## Claim theorems for the container -/

/-- C1.  If the target is a pointer and every field with a non-empty
`inject` tag names a registered service and is settable, then `Inject`
returns nil and afterwards every such field holds exactly the registered
instance (the same `Ref` as the container's entry, hence reference-equal
and non-null). -/
theorem inject_success_all_registered (c : Container) (t : Target)
    (hp : t.isPtr = true)
    (h : ∀ f ∈ t.fields, f.injectTag ≠ "" → (c.Get f.injectTag).isSome = true ∧ f.canSet = true) :
    (c.Inject t).err = none ∧
    (∀ i f, t.fields.get? i = some f → f.injectTag ≠ "" →
      ∃ g, (c.Inject t).target.fields.get? i = some g ∧
        g.value = c.Get f.injectTag ∧ g.value.isSome = true) := by
  have hmiss : (injectLoop c.services t.fields).2 = [] :=
    injectLoop_snd_nil c.services t.fields (fun f hf => h f hf)
  have hinj : c.Inject t =
      ⟨{ t with fields := (injectLoop c.services t.fields).1 }, c.services,
        (injectLoop c.services t.fields).2, none⟩ := by
    unfold Container.Inject
    rw [hp]
    simp [hmiss]
  constructor
  · rw [hinj]
  · intro i f hif htag
    obtain ⟨hsome, hset⟩ := h f (List.get?_mem hif) htag
    refine ⟨(injectField c.services f).1, ?_, ?_, ?_⟩
    · rw [hinj]
      simp only
      rw [injectLoop_fst_eq_map, List.get?_map, hif, Option.map_some']
    · exact injectField_fst_value c.services f htag hsome hset
    · rw [injectField_fst_value c.services f htag hsome hset]
      exact hsome

/-- Witness for C1: a container with services `A ↦ 10`, `B ↦ 20` injected
into a two-field target. -/
theorem inject_success_all_registered_witness :
    (let c : Container := ⟨[("A", 10), ("B", 20)]⟩
     let t : Target := ⟨true, "T",
       [⟨"fa", "A", true, none⟩, ⟨"plain", "", false, none⟩, ⟨"fb", "B", true, none⟩]⟩
     (c.Inject t).err = none ∧
     (∀ i f, t.fields.get? i = some f → f.injectTag ≠ "" →
       ∃ g, (c.Inject t).target.fields.get? i = some g ∧
         g.value = c.Get f.injectTag ∧ g.value.isSome = true)) :=
  inject_success_all_registered ⟨[("A", 10), ("B", 20)]⟩
    ⟨true, "T", [⟨"fa", "A", true, none⟩, ⟨"plain", "", false, none⟩, ⟨"fb", "B", true, none⟩]⟩
    rfl (by decide)

/-- C2.  If the target is a pointer and some field with a non-empty
`inject` tag is unresolvable (service not registered, or field not
settable), `Inject` returns an error built from the full list of
accumulated failures, and that list contains the descriptive entry of
every unresolvable field — the scan does not stop at the first one. -/
theorem inject_error_reports_all_missing (c : Container) (t : Target)
    (hp : t.isPtr = true)
    (hbad : ∃ f ∈ t.fields, f.injectTag ≠ "" ∧ (c.Get f.injectTag = none ∨ f.canSet = false)) :
    (c.Inject t).err = some (injectErrorMsg t.name (c.Inject t).missing) ∧
    (∀ f ∈ t.fields, f.injectTag ≠ "" → c.Get f.injectTag = none →
      ("service " ++ f.injectTag ++ " (not found)") ∈ (c.Inject t).missing) ∧
    (∀ f ∈ t.fields, f.injectTag ≠ "" → (c.Get f.injectTag).isSome = true → f.canSet = false →
      ("field " ++ f.name ++ " (cannot set)") ∈ (c.Inject t).missing) := by
  have hmem_notfound : ∀ f ∈ t.fields, f.injectTag ≠ "" → mapGet c.services f.injectTag = none →
      ("service " ++ f.injectTag ++ " (not found)") ∈ (injectLoop c.services t.fields).2 := by
    intro f hf htag hget
    refine injectField_snd_subset_loop c.services t.fields f hf _ ?_
    simp [injectField, htag, hget]
  have hmem_cannotset : ∀ f ∈ t.fields, f.injectTag ≠ "" →
      (mapGet c.services f.injectTag).isSome = true → f.canSet = false →
      ("field " ++ f.name ++ " (cannot set)") ∈ (injectLoop c.services t.fields).2 := by
    intro f hf htag hsome hset
    refine injectField_snd_subset_loop c.services t.fields f hf _ ?_
    cases hget : mapGet c.services f.injectTag with
    | none => rw [hget] at hsome; simp at hsome
    | some s => simp [injectField, htag, hget, hset]
  have hne : (injectLoop c.services t.fields).2.length > 0 := by
    obtain ⟨f, hf, htag, hor⟩ := hbad
    rcases hor with hget | hset
    · exact List.length_pos.mpr (List.ne_nil_of_mem (hmem_notfound f hf htag hget))
    · cases hget : mapGet c.services f.injectTag with
      | none => exact List.length_pos.mpr (List.ne_nil_of_mem (hmem_notfound f hf htag hget))
      | some s =>
          have hsome : (mapGet c.services f.injectTag).isSome = true := by rw [hget]; rfl
          exact List.length_pos.mpr (List.ne_nil_of_mem (hmem_cannotset f hf htag hsome hset))
  have hinj : c.Inject t =
      ⟨{ t with fields := (injectLoop c.services t.fields).1 }, c.services,
        (injectLoop c.services t.fields).2,
        some (injectErrorMsg t.name (injectLoop c.services t.fields).2)⟩ := by
    unfold Container.Inject
    rw [hp]
    simp [hne]
  refine ⟨by rw [hinj], fun f hf htag hget => ?_, fun f hf htag hsome hset => ?_⟩
  · rw [hinj]; exact hmem_notfound f hf htag hget
  · rw [hinj]; exact hmem_cannotset f hf htag hsome hset

/-- Witness for C2: one resolvable field, one unregistered service, one
unsettable field; both failures are reported. -/
theorem inject_error_reports_all_missing_witness :
    (let c : Container := ⟨[("A", 10)]⟩
     let t : Target := ⟨true, "T",
       [⟨"fa", "A", true, none⟩, ⟨"fm", "Missing", true, none⟩, ⟨"fu", "A", false, none⟩]⟩
     (c.Inject t).err = some (injectErrorMsg t.name (c.Inject t).missing) ∧
     (∀ f ∈ t.fields, f.injectTag ≠ "" → c.Get f.injectTag = none →
       ("service " ++ f.injectTag ++ " (not found)") ∈ (c.Inject t).missing) ∧
     (∀ f ∈ t.fields, f.injectTag ≠ "" → (c.Get f.injectTag).isSome = true → f.canSet = false →
       ("field " ++ f.name ++ " (cannot set)") ∈ (c.Inject t).missing)) :=
  inject_error_reports_all_missing ⟨[("A", 10)]⟩
    ⟨true, "T", [⟨"fa", "A", true, none⟩, ⟨"fm", "Missing", true, none⟩, ⟨"fu", "A", false, none⟩]⟩
    rfl ⟨⟨"fm", "Missing", true, none⟩, by decide, by decide, Or.inl (by decide)⟩

/-- C6.  A non-pointer target is a silent no-op: `Inject` returns nil,
mutates nothing, and records no failures. -/
theorem inject_non_pointer_noop (c : Container) (t : Target) (hp : t.isPtr = false) :
    c.Inject t = ⟨t, c.services, [], none⟩ := by
  unfold Container.Inject
  rw [hp]
  rfl

/-- Witness for C6. -/
theorem inject_non_pointer_noop_witness :
    (let c : Container := ⟨[("A", 10)]⟩
     let t : Target := ⟨false, "T", [⟨"fa", "A", true, none⟩]⟩
     c.Inject t = ⟨t, c.services, [], none⟩) :=
  inject_non_pointer_noop ⟨[("A", 10)]⟩ ⟨false, "T", [⟨"fa", "A", true, none⟩]⟩ rfl

/-- C10.  `Inject` never changes the container's service map, and every
field whose `inject` tag is empty keeps its prior value, whether or not an
error is returned. -/
theorem inject_frame_untagged_and_services (c : Container) (t : Target) :
    (c.Inject t).services = c.services ∧
    (∀ i f, t.fields.get? i = some f → f.injectTag = "" →
      (c.Inject t).target.fields.get? i = some f) := by
  cases hp : t.isPtr with
  | false =>
      rw [inject_non_pointer_noop c t hp]
      exact ⟨rfl, fun i f hif _ => hif⟩
  | true =>
      have hfields : (c.Inject t).target.fields = (injectLoop c.services t.fields).1 ∧
          (c.Inject t).services = c.services := by
        unfold Container.Inject
        rw [hp]
        by_cases hl : (injectLoop c.services t.fields).2.length > 0 <;> simp [hl]
      refine ⟨hfields.2, fun i f hif htag => ?_⟩
      rw [hfields.1, injectLoop_fst_eq_map, List.get?_map, hif, Option.map_some']
      rw [injectField_fst_of_empty_tag c.services f htag]

/-- Witness for C10: a failing injection still leaves the untagged field
and the service map untouched. -/
theorem inject_frame_untagged_and_services_witness :
    (let c : Container := ⟨[("A", 10)]⟩
     let t : Target := ⟨true, "T", [⟨"plain", "", true, some 7⟩, ⟨"fm", "Missing", true, none⟩]⟩
     (c.Inject t).services = c.services ∧
     (c.Inject t).target.fields.get? 0 = some ⟨"plain", "", true, some 7⟩) :=
  ⟨(inject_frame_untagged_and_services ⟨[("A", 10)]⟩
      ⟨true, "T", [⟨"plain", "", true, some 7⟩, ⟨"fm", "Missing", true, none⟩]⟩).1,
   (inject_frame_untagged_and_services ⟨[("A", 10)]⟩
      ⟨true, "T", [⟨"plain", "", true, some 7⟩, ⟨"fm", "Missing", true, none⟩]⟩).2
     0 ⟨"plain", "", true, some 7⟩ rfl rfl⟩

/-! ## Lemmas about the association-list map model -/

lemma mapGet_mapUpdate_self {α : Type} (l : List (String × α)) (k : String) (v : α) :
    mapGet (mapUpdate l k v) k = some v := by
  induction l with
  | nil => simp [mapUpdate, mapGet]
  | cons p rest ih =>
      by_cases hk : p.1 = k
      · simp [mapUpdate, mapGet, hk]
      · simp [mapUpdate, mapGet, hk, ih]

lemma mapHasKey_mapUpdate_self {α : Type} (l : List (String × α)) (k : String) (v : α) :
    mapHasKey (mapUpdate l k v) k = true := by
  induction l with
  | nil => simp [mapUpdate, mapHasKey]
  | cons p rest ih =>
      by_cases hk : p.1 = k
      · simp [mapUpdate, mapHasKey, hk]
      · simp [mapUpdate, mapHasKey, hk, ih]

lemma mapUpdate_of_not_hasKey {α : Type} (l : List (String × α)) (k : String) (v : α)
    (h : mapHasKey l k = false) : mapUpdate l k v = l ++ [(k, v)] := by
  induction l with
  | nil => rfl
  | cons p rest ih =>
      by_cases hk : p.1 = k
      · rw [mapHasKey] at h; simp [hk] at h
      · rw [mapHasKey] at h
        simp only [hk, if_false] at h
        simp [mapUpdate, hk, ih h]

lemma countP_key_zero_of_not_hasKey {α : Type} (l : List (String × α)) (k : String)
    (h : mapHasKey l k = false) : l.countP (fun p => p.1 == k) = 0 := by
  induction l with
  | nil => rfl
  | cons p rest ih =>
      rw [mapHasKey] at h
      by_cases hk : p.1 = k
      · simp [hk] at h
      · simp only [hk, if_false] at h
        rw [List.countP_cons]
        simp [hk, ih h]

/-! ## Claim theorem for module registration (C5) -/

/-- C5.  When no module named `m.GetModuleName` is registered:
auto-registration installs `m`; a second auto-registration of any `m'`
with the same name is a no-op, leaving the first descriptor and exactly
one entry for that name; and the unconditional `RegisterModule` always
overwrites the entry for its module's name. -/
theorem module_registration_idempotent_vs_overwrite
    (mr : ModuleRegistry) (m m' : Module)
    (hname : m'.GetModuleName = m.GetModuleName)
    (hfresh : mr.IsModuleRegistered m.GetModuleName = false) :
    (AutoRegisterModule mr m).GetModule m.GetModuleName = some m ∧
    AutoRegisterModule (AutoRegisterModule mr m) m' = AutoRegisterModule mr m ∧
    (AutoRegisterModule (AutoRegisterModule mr m) m').GetModule m.GetModuleName = some m ∧
    ((AutoRegisterModule (AutoRegisterModule mr m) m').modules.countP
        (fun p => p.1 == m.GetModuleName)) = 1 ∧
    (∀ reg : ModuleRegistry, (reg.RegisterModule m').GetModule m'.GetModuleName = some m') := by
  have h1 : AutoRegisterModule mr m = mr.RegisterModule m := by
    unfold AutoRegisterModule
    rw [hfresh]
    rfl
  have hget : (mr.RegisterModule m).GetModule m.GetModuleName = some m :=
    mapGet_mapUpdate_self mr.modules m.GetModuleName m
  have hhas : (mr.RegisterModule m).IsModuleRegistered m.GetModuleName = true :=
    mapHasKey_mapUpdate_self mr.modules m.GetModuleName m
  have h2 : AutoRegisterModule (mr.RegisterModule m) m' = mr.RegisterModule m := by
    unfold AutoRegisterModule
    rw [hname, hhas]
    rfl
  refine ⟨?_, ?_, ?_, ?_, ?_⟩
  · rw [h1]; exact hget
  · rw [h1, h2]
  · rw [h1, h2]; exact hget
  · rw [h1, h2]
    show ((mapUpdate mr.modules m.GetModuleName m).countP (fun p => p.1 == m.GetModuleName)) = 1
    rw [mapUpdate_of_not_hasKey mr.modules m.GetModuleName m hfresh, List.countP_append,
        countP_key_zero_of_not_hasKey mr.modules m.GetModuleName hfresh]
    simp [List.countP_cons]
  · intro reg
    exact mapGet_mapUpdate_self reg.modules m'.GetModuleName m'

/-- Witness for C5: registering `⟨"M", 1⟩` then auto-registering `⟨"M", 2⟩`
keeps the first, while `RegisterModule` overwrites. -/
theorem module_registration_idempotent_vs_overwrite_witness :
    ((AutoRegisterModule ⟨[]⟩ ⟨"M", 1⟩).GetModule "M" = some ⟨"M", 1⟩ ∧
     AutoRegisterModule (AutoRegisterModule ⟨[]⟩ ⟨"M", 1⟩) ⟨"M", 2⟩ =
       AutoRegisterModule ⟨[]⟩ ⟨"M", 1⟩ ∧
     (AutoRegisterModule (AutoRegisterModule ⟨[]⟩ ⟨"M", 1⟩) ⟨"M", 2⟩).GetModule "M" =
       some ⟨"M", 1⟩ ∧
     ((AutoRegisterModule (AutoRegisterModule ⟨[]⟩ ⟨"M", 1⟩) ⟨"M", 2⟩).modules.countP
        (fun p => p.1 == "M")) = 1 ∧
     (∀ reg : ModuleRegistry,
        (reg.RegisterModule ⟨"M", 2⟩).GetModule "M" = some ⟨"M", 2⟩)) :=
  module_registration_idempotent_vs_overwrite ⟨[]⟩ ⟨"M", 1⟩ ⟨"M", 2⟩ rfl rfl

/-! ## Lemmas about the heap model (for C9) -/

lemma heap_find_append_last {α : Type} (l : List (Ref × α)) (r : Ref) (e : Ref × α)
    (hne : ¬(e.1 = r)) :
    (l ++ [e]).find? (fun p => p.1 == r) = l.find? (fun p => p.1 == r) := by
  induction l with
  | nil =>
      simp only [List.nil_append, List.find?_nil]
      rw [List.find?_cons_of_neg _ (by simp [hne]), List.find?_nil]
  | cons a t ih =>
      by_cases hpa : a.1 = r
      · simp only [List.cons_append]
        rw [List.find?_cons_of_pos _ (by simp [hpa]), List.find?_cons_of_pos _ (by simp [hpa])]
      · simp only [List.cons_append]
        rw [List.find?_cons_of_neg _ (by simp [hpa]), List.find?_cons_of_neg _ (by simp [hpa]),
            ih]

lemma heap_read_alloc_old (h : Heap) (cs : List (String × Module)) (r : Ref)
    (hr : r < h.next) : (h.alloc cs).2.read r = h.read r := by
  unfold Heap.alloc Heap.read
  rw [heap_find_append_last h.maps r (h.next, cs) (Nat.ne_of_gt hr)]

lemma heap_find_append_self {α : Type} (l : List (Ref × α)) (n : Ref) (cs : α)
    (hlt : ∀ p ∈ l, p.1 < n) :
    (l ++ [(n, cs)]).find? (fun p => p.1 == n) = some (n, cs) := by
  induction l with
  | nil =>
      simp only [List.nil_append]
      rw [List.find?_cons_of_pos _ (by simp)]
  | cons a t ih =>
      have ha : ¬(a.1 = n) := Nat.ne_of_lt (hlt a (List.mem_cons_self a t))
      simp only [List.cons_append]
      rw [List.find?_cons_of_neg _ (by simp [ha])]
      exact ih (fun p hp => hlt p (List.mem_cons_of_mem a hp))

lemma heap_read_alloc_new (h : Heap) (cs : List (String × Module)) (hwf : h.wf) :
    (h.alloc cs).2.read (h.alloc cs).1 = cs := by
  unfold Heap.alloc Heap.read
  simp only
  rw [heap_find_append_self h.maps h.next cs hwf]

lemma heap_find_map_other {α : Type} (l : List (Ref × α)) (g : α → α) (rm r : Ref)
    (hne : ¬(rm = r)) :
    (l.map (fun p => if p.1 = rm then (p.1, g p.2) else p)).find? (fun p => p.1 == r)
      = l.find? (fun p => p.1 == r) := by
  induction l with
  | nil => rfl
  | cons a t ih =>
      by_cases ham : a.1 = rm
      · have har : ¬(a.1 = r) := fun he => hne (ham ▸ he)
        simp only [List.map_cons, ham, if_true]
        rw [List.find?_cons_of_neg _ (by simp [ham]; exact fun he => hne he),
            List.find?_cons_of_neg _ (by simp [har]), ih]
      · simp only [List.map_cons, ham, if_false]
        by_cases hpa : a.1 = r
        · rw [List.find?_cons_of_pos _ (by simp [hpa]), List.find?_cons_of_pos _ (by simp [hpa])]
        · rw [List.find?_cons_of_neg _ (by simp [hpa]), List.find?_cons_of_neg _ (by simp [hpa]),
              ih]

lemma heap_read_mapSet_other (h : Heap) (rm r : Ref) (k : String) (v : Module)
    (hne : ¬(rm = r)) : (h.mapSet rm k v).read r = h.read r := by
  unfold Heap.mapSet Heap.read
  rw [heap_find_map_other h.maps (fun m => mapUpdate m k v) rm r hne]

lemma heap_read_mapDelete_other (h : Heap) (rm r : Ref) (k : String)
    (hne : ¬(rm = r)) : (h.mapDelete rm k).read r = h.read r := by
  unfold Heap.mapDelete Heap.read
  rw [heap_find_map_other h.maps (fun m => m.filter (fun q => !(q.1 == k))) rm r hne]

lemma heap_wf_alloc (h : Heap) (cs : List (String × Module)) (hwf : h.wf) :
    (h.alloc cs).2.wf := by
  unfold Heap.alloc Heap.wf
  intro p hp
  simp only [List.mem_append, List.mem_singleton] at hp
  rcases hp with hp | hp
  · exact Nat.lt_succ_of_lt (hwf p hp)
  · rw [hp]; exact Nat.lt_succ_self h.next

lemma heap_wf_mapSet (h : Heap) (r : Ref) (k : String) (v : Module) (hwf : h.wf) :
    (h.mapSet r k v).wf := by
  unfold Heap.mapSet Heap.wf
  intro p hp
  simp only [List.mem_map] at hp
  obtain ⟨q, hq, hpq⟩ := hp
  have := hwf q hq
  by_cases hqr : q.1 = r
  · simp only [hqr, if_true] at hpq
    rw [← hpq]
    simpa [hqr] using this
  · simp only [hqr, if_false] at hpq
    rw [← hpq]
    exact this

/-! ## Claim theorem for `GetAllModules` (C9) -/

/-- C9.  `GetAllModules` returns a snapshot: a reference distinct from the
registry's map whose contents equal the registry's; setting or deleting
keys on the snapshot leaves the registry's map unchanged, and a subsequent
`GetAllModules` still returns exactly the registry's contents. -/
theorem get_all_modules_snapshot (h : Heap) (reg : Ref)
    (hwf : h.wf) (hreg : reg < h.next) :
    ¬((GetAllModules h reg).1 = reg) ∧
    (GetAllModules h reg).2.read (GetAllModules h reg).1 = h.read reg ∧
    (∀ k v, ((GetAllModules h reg).2.mapSet (GetAllModules h reg).1 k v).read reg
        = h.read reg) ∧
    (∀ k, ((GetAllModules h reg).2.mapDelete (GetAllModules h reg).1 k).read reg
        = h.read reg) ∧
    (∀ k v,
      (GetAllModules (((GetAllModules h reg).2.mapSet (GetAllModules h reg).1 k v)) reg).2.read
          (GetAllModules (((GetAllModules h reg).2.mapSet (GetAllModules h reg).1 k v)) reg).1
        = h.read reg) := by
  unfold GetAllModules
  have hwf1 : (h.alloc (h.read reg)).2.wf := heap_wf_alloc h (h.read reg) hwf
  have hne : ¬((h.alloc (h.read reg)).1 = reg) := Nat.ne_of_gt hreg
  refine ⟨Nat.ne_of_gt hreg, heap_read_alloc_new h (h.read reg) hwf, ?_, ?_, ?_⟩
  · intro k v
    rw [heap_read_mapSet_other _ _ _ _ _ hne]
    exact heap_read_alloc_old h (h.read reg) reg hreg
  · intro k
    rw [heap_read_mapDelete_other _ _ _ _ hne]
    exact heap_read_alloc_old h (h.read reg) reg hreg
  · intro k v
    have hwf2 : ((h.alloc (h.read reg)).2.mapSet (h.alloc (h.read reg)).1 k v).wf :=
      heap_wf_mapSet (h.alloc (h.read reg)).2 (h.alloc (h.read reg)).1 k v hwf1
    rw [heap_read_alloc_new _ _ hwf2]
    rw [heap_read_mapSet_other _ _ _ _ _ hne]
    exact heap_read_alloc_old h (h.read reg) reg hreg

/-- Witness for C9: a one-map heap holding the registry at reference 0. -/
theorem get_all_modules_snapshot_witness :
    (let h : Heap := ⟨[(0, [("M", ⟨"M", 1⟩)])], 1⟩
     ¬((GetAllModules h 0).1 = 0) ∧
     (GetAllModules h 0).2.read (GetAllModules h 0).1 = h.read 0 ∧
     (∀ k v, ((GetAllModules h 0).2.mapSet (GetAllModules h 0).1 k v).read 0 = h.read 0) ∧
     (∀ k, ((GetAllModules h 0).2.mapDelete (GetAllModules h 0).1 k).read 0 = h.read 0) ∧
     (∀ k v,
       (GetAllModules (((GetAllModules h 0).2.mapSet (GetAllModules h 0).1 k v)) 0).2.read
           (GetAllModules (((GetAllModules h 0).2.mapSet (GetAllModules h 0).1 k v)) 0).1
         = h.read 0)) :=
  get_all_modules_snapshot ⟨[(0, [("M", ⟨"M", 1⟩)])], 1⟩ 0 (by decide) (by decide)

/-! ## Lemmas about controller registration -/

lemma Server.eq_of_routes_eq {a b : Server} (h : a.routes = b.routes) : a = b := by
  cases a; cases b; cases h; rfl

lemma registerField_routes (srv : Server) (basePath : String) (w : Bool) (f : CtrlField) :
    (registerField srv basePath w f).routes = srv.routes ++ (passField basePath w f).toList := by
  have hc : ∀ (l : List Char) (c : Char), l.contains c = decide (c ∈ l) :=
    fun l c => List.elem_eq_mem c l
  unfold registerField passField
  simp only [hc]
  split
  · simp
  · split
    · simp
    · split
      · split
        · simp [Server.RegisterRoute]
        · simp
      · simp

lemma filterMap_cons_toList {α β : Type} (g : α → Option β) (a : α) (l : List α) :
    (a :: l).filterMap g = (g a).toList ++ l.filterMap g := by
  cases h : g a <;> simp [List.filterMap_cons, h]

lemma registerPass_routes (fields : List CtrlField) (s : Server) (basePath : String)
    (w : Bool) :
    (s.registerPass fields basePath w).routes = s.routes ++ passRoutes fields basePath w := by
  induction fields generalizing s with
  | nil => simp [Server.registerPass, passRoutes]
  | cons f rest ih =>
      have hstep := ih (registerField s basePath w f)
      simp only [Server.registerPass, List.foldl_cons] at hstep ⊢
      rw [hstep, registerField_routes]
      unfold passRoutes
      rw [filterMap_cons_toList, List.append_assoc]

lemma registerController_routes (s : Server) (moduleName : String) (fields : List CtrlField)
    (basePath : String) :
    (s.RegisterController moduleName fields basePath).routes =
      s.routes ++ passRoutes fields basePath true ++ passRoutes fields basePath false := by
  unfold Server.RegisterController
  rw [registerPass_routes, registerPass_routes]

/-! ## Claim theorem for the two-pass binding order (C3) -/

/-- C3.  Binding a controller appends, after any routes already present:
first exactly the routes of the fields whose sub-path contains a parameter
marker, in declaration order, then exactly the routes of the remaining
route-tagged fields, in declaration order.  In particular every
parameterized route of the controller is registered before any
non-parameterized one. -/
theorem register_controller_two_pass_order (s : Server) (moduleName : String)
    (fields : List CtrlField) (basePath : String) :
    (s.RegisterController moduleName fields basePath).routes =
      s.routes ++ passRoutes fields basePath true ++ passRoutes fields basePath false :=
  registerController_routes s moduleName fields basePath

/-! ## Claim theorem for malformed route tags (C8) -/

lemma passField_malformed (basePath : String) (w : Bool) (f : CtrlField)
    (hlen : (goStringFields f.routeTag).length ≠ 2) :
    passField basePath w f = none := by
  unfold passField
  split
  · rfl
  · split
    · rfl
    · split
      · rename_i m p heq
        rw [heq] at hlen
        simp at hlen
      · rfl

/-- C8.  A field whose `route` tag does not split into exactly two tokens
is skipped without failing: registering the controller with it present
yields exactly the same server as registering the controller without it,
so all other fields' routes are still registered normally. -/
theorem malformed_route_tag_skipped (s : Server) (moduleName basePath : String)
    (xs ys : List CtrlField) (f : CtrlField)
    (hlen : (goStringFields f.routeTag).length ≠ 2) :
    s.RegisterController moduleName (xs ++ f :: ys) basePath =
      s.RegisterController moduleName (xs ++ ys) basePath := by
  have hnone : ∀ w, passField basePath w f = none :=
    fun w => passField_malformed basePath w f hlen
  have hpr : ∀ w, passRoutes (xs ++ f :: ys) basePath w = passRoutes (xs ++ ys) basePath w := by
    intro w
    unfold passRoutes
    rw [List.filterMap_append, List.filterMap_append, filterMap_cons_toList, hnone w]
    simp
  refine Server.eq_of_routes_eq ?_
  rw [registerController_routes, registerController_routes, hpr true, hpr false]

/-- Witness for C8: a tag with one token is skipped while the well-formed
routes around it are registered. -/
theorem malformed_route_tag_skipped_witness :
    (Server.mk []).RegisterController "users"
        [⟨"GetAll", true, "GET /"⟩, ⟨"Bad", true, "GETONLY"⟩, ⟨"GetOne", true, "GET /:id"⟩]
        "/users" =
      (Server.mk []).RegisterController "users"
        [⟨"GetAll", true, "GET /"⟩, ⟨"GetOne", true, "GET /:id"⟩] "/users" :=
  malformed_route_tag_skipped (Server.mk []) "users" "/users"
    [⟨"GetAll", true, "GET /"⟩] [⟨"GetOne", true, "GET /:id"⟩] ⟨"Bad", true, "GETONLY"⟩
    (by decide)

/-! ## Claim C4: path-parameter translation -/

/-- Specification-side predicate for the amended C4: every colon occurring
in the template starts the literal three-character sequence `:id`. -/
def onlyIdParams : List Char → Bool
  | ':' :: 'i' :: 'd' :: rest => onlyIdParams rest
  | ':' :: _ => false
  | _ :: rest => onlyIdParams rest
  | [] => true

lemma convertIdChars_cons_of_ne (c : Char) (rest : List Char)
    (hne : ∀ (r : List Char), c = ':' → rest = 'i' :: 'd' :: r → False) :
    convertIdChars (c :: rest) = c :: convertIdChars rest := by
  rw [convertIdChars.eq_def]
  split
  · rename_i r heq
    injection heq with h1 h2
    exact (hne r h1 h2).elim
  · rename_i heq
    injection heq with h1 h2
    rw [h1, h2]
  · rename_i heq
    cases heq

lemma onlyIdParams_cons_of_ne (c : Char) (rest : List Char) (hcolon : ¬(c = ':')) :
    onlyIdParams (c :: rest) = onlyIdParams rest := by
  rw [onlyIdParams.eq_def]
  split
  · rename_i r heq
    injection heq with h1
    exact (hcolon h1).elim
  · rename_i x heq
    injection heq with h1
    exact (hcolon h1).elim
  · rename_i heq
    injection heq with h1 h2
    rw [h2]
  · rename_i heq
    cases heq

lemma convertIdChars_no_colon (l : List Char) (h : onlyIdParams l = true) :
    ∀ c ∈ convertIdChars l, ¬(c = ':') := by
  induction l using convertIdChars.induct with
  | case1 rest ih =>
      have hrest : onlyIdParams rest = true := h
      intro c hc
      rw [show convertIdChars (':' :: 'i' :: 'd' :: rest) =
            '\x7b' :: 'i' :: 'd' :: '\x7d' :: convertIdChars rest from rfl] at hc
      simp only [List.mem_cons] at hc
      rcases hc with hc | hc | hc | hc | hc
      · subst hc; decide
      · subst hc; decide
      · subst hc; decide
      · subst hc; decide
      · exact ih hrest c hc
  | case2 c rest hne ih =>
      by_cases hcolon : c = ':'
      · subst hcolon
        exfalso
        rcases rest with _ | ⟨a, rest'⟩
        · simp [onlyIdParams] at h
        · by_cases ha : a = 'i'
          · subst ha
            rcases rest' with _ | ⟨b, rest''⟩
            · simp [onlyIdParams] at h
            · by_cases hb : b = 'd'
              · subst hb
                exact hne rest'' rfl rfl
              · simp [onlyIdParams, hb] at h
          · simp [onlyIdParams, ha] at h
      · rw [onlyIdParams_cons_of_ne c rest hcolon] at h
        intro x hx
        rw [convertIdChars_cons_of_ne c rest hne] at hx
        rcases List.mem_cons.mp hx with hx | hx
        · subst hx; exact hcolon
        · exact ih h x hx
  | case3 =>
      intro c hc
      simp [convertIdChars] at hc

/-- Counterexample for C4 as stated: the template `/users/:name` has a
colon-prefixed parameter segment whose name is not `id`; `RegisterRoute`
registers it verbatim, so the path handed to the transport still contains
a colon-prefixed segment (it is not translated to `\x7bname\x7d`). -/
theorem register_route_translation_counterexample :
    ((Server.mk []).RegisterRoute "GET" "/users/:name" "GetUser").routes =
      [⟨"GET", "/users/:name", "GetUser"⟩] ∧
    ':' ∈ "/users/:name".data := by
  exact ⟨by decide, by decide⟩

/-- C4 (amended).  Route registration translates only the literal
parameter token `:id` into the transport's `\x7bid\x7d` syntax: the
registered path is the template with each occurrence of `:id` replaced,
and whenever every colon in the template starts the literal `:id`, the
registered path contains no colon at all.  Parameter segments with any
other name are registered verbatim. -/
theorem register_route_converts_literal_id (p : String)
    (h : onlyIdParams p.data = true) :
    ∀ (s : Server) (m hf : String),
      (s.RegisterRoute m p hf).routes = s.routes ++ [⟨m, convertPath p, hf⟩] ∧
      ∀ c ∈ (convertPath p).data, ¬(c = ':') := by
  intro s m hf
  exact ⟨rfl, convertIdChars_no_colon p.data h⟩

/-- Witness for the amended C4 at the template `/users/:id`. -/
theorem register_route_converts_literal_id_witness :
    onlyIdParams "/users/:id".data = true ∧
    (((Server.mk []).RegisterRoute "PATCH" "/users/:id" "Upd").routes =
        [⟨"PATCH", "/users/\x7bid\x7d", "Upd"⟩] ∧
     ∀ c ∈ (convertPath "/users/:id").data, ¬(c = ':')) := by
  refine ⟨by decide, ?_, ?_⟩
  · have h := register_route_converts_literal_id "/users/:id" (by decide)
      (Server.mk []) "PATCH" "Upd"
    rw [h.1]
    decide
  · exact (register_route_converts_literal_id "/users/:id" (by decide)
      (Server.mk []) "PATCH" "Upd").2

/-! ## Claim theorem for the dispatcher (C7) -/

/-- C7.  After the bound callable runs: if it wrote to the tracked
response sink, the dispatcher writes nothing further; if it did not write
and returned a non-nil first value, that value's JSON envelope is written;
if it did not write and the first value is nil, or there is no return
value, a generic fallback message is written. -/
theorem dispatch_after_call_cases (written : Bool) (results : List (Option GoValue)) :
    (written = true → dispatchAfterCall written results = DispatchAction.nothing) ∧
    (written = false → ∀ v rest, results = some v :: rest →
      dispatchAfterCall written results = DispatchAction.writeJSON (serializeToJSON v)) ∧
    (written = false → ∀ rest, results = none :: rest →
      dispatchAfterCall written results = DispatchAction.writeRaw noDataMsg) ∧
    (written = false → results = [] →
      dispatchAfterCall written results = DispatchAction.writeRaw fieldExecutedMsg) := by
  refine ⟨fun hw => ?_, fun hw v rest hr => ?_, fun hw rest hr => ?_, fun hw hr => ?_⟩ <;>
    subst hw <;> first
    | rfl
    | (subst hr; rfl)

/-- Witness for C7: a handler that did not write and returned the string
`"x"` has the `message` envelope of `"x"` written for it. -/
theorem dispatch_after_call_cases_witness :
    dispatchAfterCall false [some (GoValue.str "x")] =
      DispatchAction.writeJSON (serializeToJSON (GoValue.str "x")) :=
  (dispatch_after_call_cases false [some (GoValue.str "x")]).2.1 rfl (GoValue.str "x") [] rfl

end NestGo
